import Mathlib

/-!
Verification development for organize-imports-cli (src/cli.js).

The single source file cli.js is a thin orchestration layer: it groups the
input file paths into ts-morph projects, applies the external
organize-imports transform per file, detects changes, and either saves the projects
(mutate mode) or prints the changed paths and exits with code 2
(list-different mode).

The shallow embedding below models:
  - serializeImports (cli.js lines 194-203) as a pure function on the list
    of import-declaration texts;
  - the per-file / per-project processing loop of main (lines 57-111) as a
    pure state-passing fold emitting an explicit effect trace (stdout
    writes, project saves, process exits);
  - the project registry and routing (addFileToProject, getProjectEntry,
    createProjectEntry, getManipulationSettings, lines 116-177) over an
    association list keyed the same way the code keys its object;
  - the CLI dispatch (lines 14-24).

External collaborators (ts-morph engine, tsconfig locator, editorconfig
reader, file contents) are modelled as components of a `World` record of
pure functions, exactly as the spec treats them: opaque, consumed through
their contracts.
-/

set_option maxRecDepth 4000

namespace OrgImports

/-- ASCII word characters of the JS regex class backslash-w: letters, digits
and underscore. -/
def isWordChar (c : Char) : Bool := c.isAlphanum || c = '_'

/-- The single-quote character (code 39), written via its code point. -/
def singleQuoteChar : Char := Char.ofNat 39

/-- The double-quote character (code 34), written via its code point. -/
def doubleQuoteChar : Char := Char.ofNat 34

/-- Whitespace characters of the JS regex class backslash-s as they occur in
source text (ASCII range): space, tab, line feed, carriage return, vertical
tab, form feed. -/
def isJsSpace (c : Char) : Bool :=
  c = ' ' || c = '\t' || c = '\n' || c = '\r' || c = Char.ofNat 11 || c = Char.ofNat 12

/-- Step 2 of serializeImports: the global replacement of every single quote
by a double quote (cli.js line 199). -/
def normalizeQuotes (l : List Char) : List Char :=
  l.map (fun c => if c = singleQuoteChar then doubleQuoteChar else c)

/-- Worker for `collapseWs`: the flag records whether we are inside a
whitespace run whose leading tab has already been emitted. -/
def collapseWsAux : Bool → List Char → List Char
  | _, [] => []
  | inRun, c :: cs =>
    if isJsSpace c then
      if inRun then collapseWsAux true cs else '\t' :: collapseWsAux true cs
    else c :: collapseWsAux false cs

/-- Step 3 of serializeImports: the global replacement of every maximal run
of whitespace by a single tab (cli.js line 200). -/
def collapseWs (l : List Char) : List Char := collapseWsAux false l

/-- Worker for `spaceWordTabs`, structurally recursive on a fuel counter.
Every step consumes at least one character of the list, so fuel equal to
the length of the list is always enough and the fuel-exhausted branch is
never reached from `spaceWordTabs`. -/
def spaceWordTabsGo : Nat → List Char → List Char
  | Nat.succ n, a :: '\t' :: b :: rest =>
    if isWordChar a && isWordChar b then a :: ' ' :: b :: spaceWordTabsGo n rest
    else a :: spaceWordTabsGo n ('\t' :: b :: rest)
  | Nat.succ n, a :: cs => a :: spaceWordTabsGo n cs
  | Nat.succ _, [] => []
  | 0, l => l

/-- Step 4 of serializeImports (cli.js line 201): the global replacement of
word-character, tab, word-character by the two word characters separated by
a single space, with the JS semantics of a left-to-right scan that resumes
immediately after each replaced match. -/
def spaceWordTabs (l : List Char) : List Char := spaceWordTabsGo l.length l

/-- Step 5 of serializeImports: the global removal of every remaining tab
(cli.js line 202). -/
def removeTabs (l : List Char) : List Char := l.filter (fun c => c != '\t')

/-- serializeImports (cli.js lines 194-203): concatenate the texts of
the import declarations in file order, normalize quotes, collapse whitespace
runs to tab markers, put a single space where a tab marker sits between two
word characters, drop the remaining tab markers. -/
def serializeImports (importTexts : List String) : String :=
  String.mk (removeTabs (spaceWordTabs (collapseWs (normalizeQuotes
    (String.join importTexts).toList))))

/-- Variant of step 4 following the words of claim C2: a tab marker sitting
between two word characters is removed (the word characters become
adjacent), with the same left-to-right scan. Written to be compared with
`spaceWordTabs`, which is what the code actually does. -/
def removeWordTabsGo : Nat → List Char → List Char
  | Nat.succ n, a :: '\t' :: b :: rest =>
    if isWordChar a && isWordChar b then a :: b :: removeWordTabsGo n rest
    else a :: removeWordTabsGo n ('\t' :: b :: rest)
  | Nat.succ n, a :: cs => a :: removeWordTabsGo n cs
  | Nat.succ _, [] => []
  | 0, l => l

/-- Removal variant of the word-tab-word scan, with the same fuel scheme as
`spaceWordTabsGo`. -/
def removeWordTabs (l : List Char) : List Char := removeWordTabsGo l.length l

/-- The serialization algorithm exactly as claim C2 words it: identical to
`serializeImports` except that a tab between two word characters is removed
rather than replaced by a space. -/
def serializeImportsSpecWords (importTexts : List String) : String :=
  String.mk (removeTabs (removeWordTabs (collapseWs (normalizeQuotes
    (String.join importTexts).toList))))

/-- Every whitespace character replaced by a tab, leaving everything else in
place; first half of the amended description of step 3. -/
def markSpaces (l : List Char) : List Char :=
  l.map (fun c => if isJsSpace c then '\t' else c)

/-- Collapse every run of consecutive tabs to a single tab; second half of
the amended description of step 3. -/
def squeezeTabs : List Char → List Char
  | [] => []
  | c :: cs =>
    match cs with
    | [] => [c]
    | d :: _ => if c = '\t' && d = '\t' then squeezeTabs cs else c :: squeezeTabs cs

/-- The serialization algorithm as the amended claim C2 words it: quote
normalization; every whitespace character becomes a tab marker and
consecutive tab markers are merged; a tab marker between two word
characters becomes a single space (left-to-right scan resuming after each
replacement); remaining tab markers are dropped. -/
def serializeImportsAmendedWords (importTexts : List String) : String :=
  String.mk (removeTabs (spaceWordTabs (squeezeTabs (markSpaces (normalizeQuotes
    (String.join importTexts).toList)))))

/-- Decidable substring test on character lists, modelling the JS method
String.prototype.includes. -/
def containsSeq (pat : List Char) : List Char → Bool
  | [] => pat.isEmpty
  | c :: tl => pat.isPrefixOf (c :: tl) || containsSeq pat tl

/-- fullText.includes of the ignore marker (cli.js line 68). -/
def containsMarker (s : String) : Bool :=
  containsSeq "// organize-imports-ignore".toList s.toList

/-- fullText.includes of a carriage-return line-feed pair (cli.js line 74). -/
def hasCrLf (s : String) : Bool := containsSeq "\r\n".toList s.toList

/-- The ts-morph NewLineKind enumeration as used by cli.js. -/
inductive NewLineKind where
  | lineFeed
  | carriageReturnLineFeed
deriving DecidableEq

/-- The ts-morph IndentationText enumeration as used by cli.js. -/
inductive IndentationText where
  | tab
  | twoSpaces
  | fourSpaces
deriving DecidableEq

/-- The ts-morph QuoteKind enumeration as used by cli.js. -/
inductive QuoteKind where
  | single
  | double
deriving DecidableEq

/-- The manipulation settings cli.js passes to a ts-morph Project. -/
structure ManipulationSettings where
  indentationText : IndentationText
  newLineKind : NewLineKind
  quoteKind : QuoteKind
deriving DecidableEq

/-- The directory style settings returned by editorconfig.parseSync, as read
by getManipulationSettings and createProjectEntry: each property is either
absent or carries a value. -/
structure EditorConfig where
  indent_style : Option String
  tab_width : Option Nat
  end_of_line : Option String
deriving DecidableEq

/-- getManipulationSettings (cli.js lines 163-177). -/
def getManipulationSettings (ec : EditorConfig) : ManipulationSettings :=
  { indentationText :=
      if ec.indent_style = some "tab" then IndentationText.tab
      else if ec.tab_width = some 2 then IndentationText.twoSpaces
      else IndentationText.fourSpaces
    newLineKind :=
      if ec.end_of_line = some "crlf" then NewLineKind.carriageReturnLineFeed
      else NewLineKind.lineFeed
    quoteKind := QuoteKind.single }

/-- JS double-bang truthiness of a value that is either undefined or a
string: undefined and the empty string are falsy (cli.js line 159 applies
this to ec.end_of_line). -/
def jsTruthyStr : Option String → Bool
  | none => false
  | some s => !s.isEmpty

/-- One source file as the processing loop observes it: its path, its full
text before the transform, and the data the external ts-morph engine
produces for it — the full text after organizeImports and
the import-declaration texts before and after. The engine itself is out of
scope (spec section 1), so its per-file results are data of the model. -/
structure SourceFileModel where
  path : String
  text : String
  textAfter : String
  importsBefore : List String
  importsAfter : List String
deriving DecidableEq

/-- One project entry as the batch loop consumes it (cli.js line 57): the
source files in attachment order, the detectNewLineKind flag, and the
statically resolved newline setting of its manipulation settings. -/
structure ProjectModel where
  files : List SourceFileModel
  detectNewLineKind : Bool
  newLineKind : NewLineKind
deriving DecidableEq

/-- The per-project mutable state of the loop body (cli.js lines 60-61). -/
structure ProcState where
  differentFiles : List String
  crLfWeight : Int
deriving DecidableEq

/-- Observable effects of a run: a chunk written to standard output, a line
written to standard error, a project save with its effective newline
setting, and a process exit with a code. -/
inductive Effect where
  | out (s : String)
  | err (s : String)
  | save (newline : NewLineKind)
  | exit (code : Nat)
deriving DecidableEq

/-- logger.write (cli.js lines 31-39): suppressed in list-different mode. -/
def loggerWrite (listDifferent : Bool) (s : String) : List Effect :=
  if listDifferent then [] else [Effect.out s]

/-- logger.writeLine (cli.js lines 31-39): suppressed in list-different
mode; console.log appends a newline. -/
def loggerLine (listDifferent : Bool) (s : String) : List Effect :=
  if listDifferent then [] else [Effect.out (s ++ "\n")]

/-- The body of the per-file loop (cli.js lines 63-91): write the progress
path, skip marked files, accumulate the newline vote when
detectNewLineKind is set, detect change by import serialization
(list-different mode) or full text (mutate mode), and record changed
paths. -/
def processFile (listDifferent detect : Bool) (st : ProcState) (f : SourceFileModel) :
    ProcState × List Effect :=
  let e0 := loggerWrite listDifferent f.path
  if containsMarker f.text then
    (st, e0 ++ loggerLine listDifferent " (skipped)")
  else
    let st1 : ProcState :=
      { st with crLfWeight :=
          if detect then st.crLfWeight + (if hasCrLf f.text then 1 else -1)
          else st.crLfWeight }
    let unchanged : Bool :=
      if listDifferent then serializeImports f.importsBefore == serializeImports f.importsAfter
      else f.text == f.textAfter
    if unchanged then (st1, e0 ++ loggerLine listDifferent "")
    else
      ({ st1 with differentFiles := st1.differentFiles ++ [f.path] },
        e0 ++ loggerLine listDifferent ("\r" ++ f.path ++ " (modified)"))

/-- The per-file loop over a project's source files (cli.js line 63),
threading the state and concatenating the emitted effects. -/
def processFiles (listDifferent detect : Bool) : List SourceFileModel → ProcState →
    ProcState × List Effect
  | [], st => (st, [])
  | f :: fs, st =>
    let r1 := processFile listDifferent detect st f
    let r2 := processFiles listDifferent detect fs r1.1
    (r2.1, r1.2 ++ r2.2)

/-- The state a project's batch ends in, started from the empty state. -/
def projState (listDifferent : Bool) (p : ProjectModel) : ProcState :=
  (processFiles listDifferent p.detectNewLineKind p.files
    { differentFiles := [], crLfWeight := 0 }).1

/-- Whether a project's list-different batch ends with a nonempty changed
list (the condition of cli.js line 93 in list-different mode). -/
def projHasDifferent (p : ProjectModel) : Bool :=
  !(projState true p).differentFiles.isEmpty

/-- The per-project loop with its finalization (cli.js lines 57-111): when a
project has changed files, list-different mode prints each changed path to
standard output and exits the process with code 2 (nothing after it runs),
while mutate mode saves the project, overriding its newline setting by the
accumulated vote when that vote is nonzero; the trailing Done banner goes
through the logger. -/
def runProjects (listDifferent : Bool) : List ProjectModel → List Effect
  | [] => loggerLine listDifferent "Done!"
  | p :: ps =>
    let pr := processFiles listDifferent p.detectNewLineKind p.files
      { differentFiles := [], crLfWeight := 0 }
    if pr.1.differentFiles.isEmpty then pr.2 ++ runProjects listDifferent ps
    else if listDifferent then
      pr.2 ++ pr.1.differentFiles.map (fun fp => Effect.out (fp ++ "\n")) ++ [Effect.exit 2]
    else
      pr.2 ++
        [Effect.save
          (if pr.1.crLfWeight ≠ 0 then
            (if pr.1.crLfWeight > 0 then NewLineKind.carriageReturnLineFeed
             else NewLineKind.lineFeed)
           else p.newLineKind)] ++
        runProjects listDifferent ps

/-- The standard-output content of an effect trace. -/
def stdoutOf (effs : List Effect) : String :=
  String.join (effs.filterMap (fun e =>
    match e with
    | Effect.out s => some s
    | _ => none))

/-- The exit code a trace communicates: the first explicit exit effect, or 0
when the process ends naturally. -/
def exitOf (effs : List Effect) : Nat :=
  (effs.findSome? (fun e =>
    match e with
    | Effect.exit n => some n
    | _ => none)).getD 0

/-- Whether a file counts as changed by the loop's detection for the given
mode: not skipped, and different imports (list-different) or different full
text (mutate). -/
def fileChanged (listDifferent : Bool) (f : SourceFileModel) : Bool :=
  !containsMarker f.text &&
    (if listDifferent then !(serializeImports f.importsBefore == serializeImports f.importsAfter)
     else !(f.text == f.textAfter))

/-- The per-file newline vote (cli.js line 74). -/
def fileVote (f : SourceFileModel) : Int := if hasCrLf f.text then 1 else -1

/-- The paths of all files with disorganized imports across every project,
in iteration order: the quantity claim C1 says list-different mode prints. -/
def disorganizedPaths (ps : List ProjectModel) : List String :=
  ps.flatMap (fun p => (p.files.filter (fileChanged true)).map (fun f => f.path))

/-- Concrete file: carriage-return line-feed content, changed by the
transform in mutate mode, no ignore marker. -/
def c4File : SourceFileModel :=
  { path := "w.ts", text := "a\r\nb", textAfter := "b\r\na",
    importsBefore := [], importsAfter := [] }

/-- Concrete project holding `c4File`, with newline detection on and a
static line-feed default. -/
def c4Proj : ProjectModel :=
  { files := [c4File], detectNewLineKind := true, newLineKind := NewLineKind.lineFeed }

/-- Concrete file whose text is exactly the ignore marker, with transform
results that would count as changed were it not skipped. -/
def c5File : SourceFileModel :=
  { path := "s.ts", text := "// organize-imports-ignore", textAfter := "x",
    importsBefore := ["import \"b\""], importsAfter := ["import \"a\""] }

/-- Concrete project holding only `c5File`. -/
def c5Proj : ProjectModel :=
  { files := [c5File], detectNewLineKind := true, newLineKind := NewLineKind.lineFeed }

/-- The external collaborators cli.js consumes, as pure functions: the
tsconfig locator (tsconfig.findSync applied to the file's directory, here
keyed directly by the file path), the editorconfig reader
(editorconfig.parseSync), whether a real-configuration project recognizes a
path as one of its sources (project.getSourceFile returns a file), and the
per-path engine data a source file yields once loaded. -/
structure World where
  findConfig : String → Option String
  ec : String → EditorConfig
  recognizes : String → String → Bool
  fileData : String → SourceFileModel

/-- One value of the projects record (cli.js lines 43-50 and 156-160): the
attached file paths in push order, the manipulation settings the project
was created with, the detectNewLineKind flag, and whether the entry was
created from a real tsconfig path. -/
structure ProjectEntry where
  files : List String
  settings : ManipulationSettings
  detectNewLineKind : Bool
  isReal : Bool
deriving DecidableEq

/-- The projects record of main (cli.js line 50): string keys in insertion
order, one entry per key, as JS object semantics give for these
non-numeric keys. -/
abbrev Registry := List (String × ProjectEntry)

/-- Lookup of the entry stored under a key (first match). -/
def regLookup : Registry → String → Option ProjectEntry
  | [], _ => none
  | (k0, e) :: rest, k => if k0 = k then some e else regLookup rest k

/-- files.push(sourceFile) on the entry stored under a key (cli.js line
128): the first entry with that key gets the path appended; a registry
without the key is unchanged. -/
def regPush : Registry → String → String → Registry
  | [], _, _ => []
  | (k0, e) :: rest, k, fp =>
    if k0 = k then (k0, { e with files := e.files ++ [fp] }) :: rest
    else (k0, e) :: regPush rest k fp

/-- getProjectEntry's creation step (cli.js lines 141-147): insert a fresh
entry when the key is absent, otherwise leave the registry alone. -/
def ensureEntry (reg : Registry) (k : String) (fresh : ProjectEntry) : Registry :=
  match regLookup reg k with
  | some _ => reg
  | none => reg ++ [(k, fresh)]

/-- createProjectEntry (cli.js lines 149-161): read the editorconfig of the
file being routed, derive the manipulation settings, start with no files,
and set detectNewLineKind from the truthiness of ec.end_of_line. -/
def createProjectEntry (w : World) (filePath : String) (tsConfigFilePath : Option String) :
    ProjectEntry :=
  let ec := w.ec filePath
  { files := []
    settings := getManipulationSettings ec
    detectNewLineKind := jsTruthyStr ec.end_of_line
    isReal := tsConfigFilePath.isSome }

/-- JS truthiness of the tsConfigFilePath value: null, undefined and the
empty string are falsy, so they all select the fake project key (cli.js
lines 123-125 and 142). -/
def jsPathOpt : Option String → Option String
  | none => none
  | some s => if s.isEmpty then none else some s

/-- The retry branch of addFileToProject (cli.js lines 132-138): route to
the fake project, where project.addExistingSourceFile attaches the file as
an independent source; this models the recursive call with a null
tsConfigFilePath, whose own failure branch returns without recursing
again (the comment - already retried - at line 133). -/
def addToFakeProject (w : World) (reg : Registry) (fp : String) : Registry :=
  regPush (ensureEntry reg "fake" (createProjectEntry w fp none)) "fake" fp

/-- addFileToProject (cli.js lines 116-139): obtain or create the entry for
the configuration key, then attach: a real-configuration project attaches
only when it recognizes the file (project.getSourceFile is non-null);
otherwise the routing is retried once with the fake identity. -/
def addFileToProject (w : World) (reg : Registry) (fp : String) (cfg : Option String) :
    Registry :=
  match jsPathOpt cfg with
  | none => addToFakeProject w reg fp
  | some c =>
    let reg1 := ensureEntry reg c (createProjectEntry w fp (some c))
    if w.recognizes c fp then regPush reg1 c fp
    else addToFakeProject w reg1 fp

/-- The style-relevant part of the entry stored under a key: its
manipulation settings and its detectNewLineKind flag. -/
def styleAt (reg : Registry) (k : String) : Option (ManipulationSettings × Bool) :=
  (regLookup reg k).map (fun e => (e.settings, e.detectNewLineKind))

/-- Number of occurrences of a path in the file list stored under a key. -/
def countIn (reg : Registry) (k fp : String) : Nat :=
  match regLookup reg k with
  | some e => e.files.count fp
  | none => 0

/-- Number of occurrences of a path across every entry's file list. -/
def countAll (reg : Registry) (fp : String) : Nat :=
  (reg.map (fun e => e.2.files.count fp)).sum

/-- The routing loop of main (cli.js lines 52-55). -/
def buildRegistry (w : World) : List String → Registry → Registry
  | [], reg => reg
  | fp :: fps, reg => buildRegistry w fps (addFileToProject w reg fp (w.findConfig fp))

/-- The project view the batch loop consumes for one registry entry: its
attached paths resolved to their engine data. -/
def projectModelOf (w : World) (e : ProjectEntry) : ProjectModel :=
  { files := e.files.map (fun fp => { w.fileData fp with path := fp })
    detectNewLineKind := e.detectNewLineKind
    newLineKind := e.settings.newLineKind }

/-- Object.values of the registry built from the input paths (cli.js line
57), in key insertion order. -/
def projectsOf (w : World) (filePaths : List String) : List ProjectModel :=
  (buildRegistry w filePaths []).map (fun e => projectModelOf w e.2)

/-- main (cli.js lines 30-114): the banner through the logger, then the
per-project loop. -/
def mainModel (w : World) (filePaths : List String) (listDifferent : Bool) : List Effect :=
  loggerLine listDifferent "Organizing imports..." ++
    runProjects listDifferent (projectsOf w filePaths)

/-- The usage text of printUsage (cli.js lines 179-189), color markup
stripped; console.log appends a final newline. -/
def usageText : String :=
  "\nUsage: organize-imports-cli [--list-different] files...\n\nFiles can be specific ts and js files or tsconfig.json, in which case the whole project is processed.\n\nFiles containing the substring \"// organize-imports-ignore\" are skipped.\n\nThe --list-different flag prints a list of files with unorganized imports. No files are modified.\n\n"

/-- The top-level dispatch (cli.js lines 14-24): with no arguments at all,
print the no-files message to standard error and exit 1; with --help
anywhere, print the usage text; otherwise run main on the arguments with
the --list-different flag stripped from the path list. -/
def cliMain (w : World) (args : List String) : List Effect × Nat :=
  if args.length = 0 then ([Effect.err "No files specified."], 1)
  else if args.contains "--help" then ([Effect.out usageText], 0)
  else
    let effs := mainModel w (args.filter (fun a => a != "--list-different"))
      (args.contains "--list-different")
    (effs, exitOf effs)

/-- An editorconfig with nothing declared. -/
def ecEmpty : EditorConfig := { indent_style := none, tab_width := none, end_of_line := none }

/-- Concrete file with disorganized imports under path a.ts. -/
def fileA : SourceFileModel :=
  { path := "a.ts", text := "a", textAfter := "a",
    importsBefore := ["import \"b\"", "import \"a\""],
    importsAfter := ["import \"a\"", "import \"b\""] }

/-- Concrete file with disorganized imports under path b.ts. -/
def fileB : SourceFileModel :=
  { path := "b.ts", text := "b", textAfter := "b",
    importsBefore := ["import \"d\"", "import \"c\""],
    importsAfter := ["import \"c\"", "import \"d\""] }

/-- Concrete world routing a.ts and b.ts to two distinct real
configurations that recognize their files, both files having
disorganized imports. -/
def wTwoProjects : World :=
  { findConfig := fun fp =>
      if fp = "a.ts" then some "/p1/tsconfig.json" else some "/p2/tsconfig.json"
    ec := fun _ => ecEmpty
    recognizes := fun _ _ => true
    fileData := fun fp => if fp = "a.ts" then fileA else fileB }

/-- Concrete world with no discoverable configuration, no recognized files
and empty file data. -/
def wSimple : World :=
  { findConfig := fun _ => none
    ec := fun _ => ecEmpty
    recognizes := fun _ _ => false
    fileData := fun fp =>
      { path := fp, text := "", textAfter := "", importsBefore := [], importsAfter := [] } }

theorem length_dropWhile_le_local (p : Char → Bool) (l : List Char) :
    (l.dropWhile p).length ≤ l.length := by
  induction l with
  | nil => simp [List.dropWhile]
  | cons c cs ih =>
    by_cases h : p c
    · simp only [List.dropWhile, h]
      exact Nat.le_trans ih (Nat.le_succ _)
    · simp [List.dropWhile, h]

theorem squeezeTabs_cons_of_head_ne_tab {c : Char} (m : List Char) (hc : ¬c = '\t') :
    squeezeTabs (c :: m) = c :: squeezeTabs m := by
  cases m with
  | nil => rfl
  | cons d ds => simp [squeezeTabs, hc]

theorem tab_isJsSpace : isJsSpace '\t' = true := by decide

theorem squeezeTabs_tab_markSpaces (cs : List Char) :
    squeezeTabs ('\t' :: markSpaces cs) =
      '\t' :: squeezeTabs (markSpaces (cs.dropWhile isJsSpace)) := by
  induction cs with
  | nil => rfl
  | cons d ds ih =>
    by_cases hd : isJsSpace d
    · have h1 : markSpaces (d :: ds) = '\t' :: markSpaces ds := by
        simp [markSpaces, hd]
      have h2 : (d :: ds).dropWhile isJsSpace = ds.dropWhile isJsSpace := by
        simp [List.dropWhile, hd]
      rw [h1, h2, ← ih]
      simp [squeezeTabs]
    · have hdt : ¬d = '\t' := by
        intro h
        rw [h] at hd
        exact hd tab_isJsSpace
      have h1 : markSpaces (d :: ds) = d :: markSpaces ds := by
        simp only [markSpaces, List.map]
        rw [if_neg hd]
      have h2 : (d :: ds).dropWhile isJsSpace = d :: ds := by
        simp [List.dropWhile, hd]
      rw [h1, h2, h1]
      simp [squeezeTabs, hdt]

theorem collapseWsAux_true_eq (l : List Char) :
    collapseWsAux true l = collapseWsAux false (l.dropWhile isJsSpace) := by
  induction l with
  | nil => rfl
  | cons c cs ih =>
    by_cases hc : isJsSpace c
    · simp [collapseWsAux, hc, List.dropWhile, ih]
    · simp [collapseWsAux, hc, List.dropWhile]

theorem collapseWs_eq_squeeze_mark (l : List Char) :
    collapseWs l = squeezeTabs (markSpaces l) := by
  suffices h : ∀ n l, List.length l ≤ n → collapseWsAux false l = squeezeTabs (markSpaces l) by
    exact h l.length l le_rfl
  intro n
  induction n with
  | zero =>
    intro l hl
    have : l = [] := List.eq_nil_of_length_eq_zero (Nat.le_zero.mp hl)
    subst this
    rfl
  | succ n ih =>
    intro l hl
    cases l with
    | nil => rfl
    | cons c cs =>
      by_cases hc : isJsSpace c
      · have h1 : markSpaces (c :: cs) = '\t' :: markSpaces cs := by
          simp [markSpaces, hc]
        have hlen : (cs.dropWhile isJsSpace).length ≤ n := by
          have h2 : (cs.dropWhile isJsSpace).length ≤ cs.length :=
            length_dropWhile_le_local isJsSpace cs
          have h3 : cs.length ≤ n := Nat.le_of_succ_le_succ hl
          exact Nat.le_trans h2 h3
        calc collapseWsAux false (c :: cs)
            = '\t' :: collapseWsAux true cs := by simp [collapseWsAux, hc]
          _ = '\t' :: collapseWsAux false (cs.dropWhile isJsSpace) := by
              rw [collapseWsAux_true_eq]
          _ = '\t' :: squeezeTabs (markSpaces (cs.dropWhile isJsSpace)) := by
              rw [ih _ hlen]
          _ = squeezeTabs ('\t' :: markSpaces cs) := (squeezeTabs_tab_markSpaces cs).symm
          _ = squeezeTabs (markSpaces (c :: cs)) := by rw [h1]
      · have hct : ¬c = '\t' := by
          intro h
          rw [h] at hc
          exact hc tab_isJsSpace
        have h1 : markSpaces (c :: cs) = c :: markSpaces cs := by
          simp only [markSpaces, List.map]
          rw [if_neg hc]
        have h3 : cs.length ≤ n := Nat.le_of_succ_le_succ hl
        calc collapseWsAux false (c :: cs)
            = c :: collapseWsAux false cs := by simp [collapseWsAux, hc]
          _ = c :: squeezeTabs (markSpaces cs) := by rw [ih _ h3]
          _ = squeezeTabs (c :: markSpaces cs) :=
              (squeezeTabs_cons_of_head_ne_tab _ hct).symm
          _ = squeezeTabs (markSpaces (c :: cs)) := by rw [h1]

/-- Claim C2 (counterexample): on the single import declaration text
of the form import a from "x", the code's serialization keeps a single space between
the word characters a and from (the code replaces a word-adjacent tab
marker by a space), while the algorithm worded in the claim, which removes
such a tab marker, glues the words together; the two serializations are
different strings. -/
theorem c2_counterexample :
    serializeImports ["import a from \"x\""] = "import afrom\"x\"" ∧
    serializeImportsSpecWords ["import a from \"x\""] = "importafrom\"x\"" ∧
    serializeImports ["import a from \"x\""] ≠
      serializeImportsSpecWords ["import a from \"x\""] := by
  refine ⟨by decide, by decide, by decide⟩

/-- Claim C2 (amended): the import serialization of a file equals the result
of concatenating the literal source text of every import declaration in
file order, normalizing all quote characters to double quotes, collapsing
every run of whitespace to a single tab marker, replacing a tab marker that
sits between two word characters by a single space (scanning left to right
and resuming after each replacement), then removing all remaining tab
markers; two files compare equal iff these serializations are identical
strings. -/
theorem c2_serialize_amended (importTexts : List String) :
    serializeImports importTexts = serializeImportsAmendedWords importTexts := by
  unfold serializeImports serializeImportsAmendedWords
  rw [collapseWs_eq_squeeze_mark]

theorem processFile_differentFiles (ld d : Bool) (st : ProcState) (f : SourceFileModel) :
    (processFile ld d st f).1.differentFiles =
      st.differentFiles ++ (if fileChanged ld f then [f.path] else []) := by
  unfold processFile fileChanged
  by_cases hm : containsMarker f.text
  · simp [hm]
  · by_cases hld : ld
    · by_cases hu : serializeImports f.importsBefore = serializeImports f.importsAfter <;>
        simp [hm, hld, hu]
    · by_cases hu : f.text = f.textAfter
      · have hm2 : containsMarker f.textAfter = false := by
          rw [← hu]
          simpa using hm
        simp [hm, hld, hu, hm2]
      · simp [hm, hld, hu]

theorem processFile_crLfWeight (ld d : Bool) (st : ProcState) (f : SourceFileModel) :
    (processFile ld d st f).1.crLfWeight =
      st.crLfWeight + (if containsMarker f.text then 0 else if d then fileVote f else 0) := by
  unfold processFile fileVote
  by_cases hm : containsMarker f.text
  · simp [hm]
  · by_cases hd : d
    · by_cases hld : ld
      · by_cases hu : serializeImports f.importsBefore = serializeImports f.importsAfter <;>
          simp [hm, hd, hld, hu]
      · by_cases hu : f.text = f.textAfter
        · have hm2 : containsMarker f.textAfter = false := by
            rw [← hu]
            simpa using hm
          simp [hm, hd, hld, hu, hm2]
        · simp [hm, hd, hld, hu]
    · by_cases hld : ld
      · by_cases hu : serializeImports f.importsBefore = serializeImports f.importsAfter <;>
          simp [hm, hd, hld, hu]
      · by_cases hu : f.text = f.textAfter
        · have hm2 : containsMarker f.textAfter = false := by
            rw [← hu]
            simpa using hm
          simp [hm, hd, hld, hu, hm2]
        · simp [hm, hd, hld, hu]

theorem processFiles_differentFiles (ld d : Bool) (fs : List SourceFileModel) (st : ProcState) :
    (processFiles ld d fs st).1.differentFiles =
      st.differentFiles ++ (fs.filter (fileChanged ld)).map (fun f => f.path) := by
  induction fs generalizing st with
  | nil => simp [processFiles]
  | cons f fs ih =>
    simp only [processFiles]
    rw [ih, processFile_differentFiles]
    by_cases h : fileChanged ld f <;> simp [h, List.filter_cons]

theorem processFiles_crLfWeight (ld d : Bool) (fs : List SourceFileModel) (st : ProcState) :
    (processFiles ld d fs st).1.crLfWeight =
      st.crLfWeight +
        (if d then ((fs.filter (fun f => !containsMarker f.text)).map fileVote).sum else 0) := by
  induction fs generalizing st with
  | nil => simp [processFiles]
  | cons f fs ih =>
    simp only [processFiles]
    rw [ih, processFile_crLfWeight]
    by_cases hm : containsMarker f.text
    · simp [hm, List.filter_cons]
    · by_cases hd : d
      · simp only [hm, Bool.false_eq_true, if_false, hd, if_true, List.filter_cons,
          Bool.not_false, List.map_cons, List.sum_cons]
        by_cases hv : hasCrLf f.text <;> simp [fileVote, hv] <;> omega
      · simp [hm, hd]

theorem processFile_effects_listDifferent (d : Bool) (st : ProcState) (f : SourceFileModel) :
    (processFile true d st f).2 = [] := by
  unfold processFile loggerWrite loggerLine
  by_cases hm : containsMarker f.text
  · simp [hm]
  · by_cases hu : serializeImports f.importsBefore = serializeImports f.importsAfter <;>
      simp [hm, hu]

theorem processFiles_effects_listDifferent (d : Bool) (fs : List SourceFileModel)
    (st : ProcState) : (processFiles true d fs st).2 = [] := by
  induction fs generalizing st with
  | nil => simp [processFiles]
  | cons f fs ih =>
    simp only [processFiles]
    rw [processFile_effects_listDifferent, ih]
    simp

/-- Claim C9: a file skipped for containing the ignore marker contributes
nothing to its project's newline vote: the accumulated vote equals the sum
of the per-file votes of exactly the non-skipped files (and is 0 when the
detectNewLineKind flag is off), so skipped files can never flip the
inferred newline kind. -/
theorem c9_skipped_files_never_vote (ld d : Bool) (fs : List SourceFileModel)
    (st : ProcState) :
    (processFiles ld d fs st).1.crLfWeight =
      st.crLfWeight +
        (if d then ((fs.filter (fun f => !containsMarker f.text)).map fileVote).sum else 0) := by
  induction fs generalizing st with
  | nil => simp [processFiles]
  | cons f fs ih =>
    simp only [processFiles]
    rw [ih, processFile_crLfWeight]
    by_cases hm : containsMarker f.text
    · simp [hm, List.filter_cons]
    · by_cases hd : d
      · simp only [hm, Bool.false_eq_true, if_false, hd, if_true, List.filter_cons,
          Bool.not_false, List.map_cons, List.sum_cons]
        by_cases hv : hasCrLf f.text <;> simp [fileVote, hv] <;> omega
      · simp [hm, hd]

/-- Claim C5: for a file whose full text contains the ignore marker,
processing skips it entirely: the loop state is unchanged (no change
detection, no vote, no changed-path entry), the outcome is independent of
everything the transform would produce (no transform is consulted), and the
file's path never enters a project's changed-file list in either mode when
every file so named carries the marker. -/
theorem c5_ignore_marker_skips (ld d : Bool) (st : ProcState) (f : SourceFileModel)
    (p : ProjectModel) (hm : containsMarker f.text = true) :
    (processFile ld d st f).1 = st ∧
    (∀ t ib ia, processFile ld d st
        { f with textAfter := t, importsBefore := ib, importsAfter := ia } =
      processFile ld d st f) ∧
    ((∀ g, g ∈ p.files → g.path = f.path → containsMarker g.text = true) →
      f.path ∉ (projState ld p).differentFiles) := by
  refine ⟨?_, ?_, ?_⟩
  · unfold processFile
    simp [hm]
  · intro t ib ia
    unfold processFile
    simp [hm]
  · intro hall hmem
    rw [projState, processFiles_differentFiles] at hmem
    simp only [List.nil_append, List.mem_map, List.mem_filter] at hmem
    obtain ⟨g, ⟨hgmem, hgch⟩, hgpath⟩ := hmem
    have hgmarker := hall g hgmem hgpath
    unfold fileChanged at hgch
    rw [hgmarker] at hgch
    simp at hgch

/-- Claim C5 witness: a concrete marked file leaves the empty state
unchanged and its path is absent from its project's changed-file list. -/
theorem c5_ignore_marker_skips_witness :
    (processFile true true { differentFiles := [], crLfWeight := 0 } c5File).1 =
      { differentFiles := [], crLfWeight := 0 } ∧
    c5File.path ∉ (projState true c5Proj).differentFiles := by
  have h := c5_ignore_marker_skips true true { differentFiles := [], crLfWeight := 0 }
    c5File c5Proj (by decide)
  refine ⟨h.1, h.2.2 ?_⟩
  intro g hg _
  have hgc : g = c5File := by simpa [c5Proj] using hg
  subst hgc
  decide

/-- Claim C4: with detectNewLineKind set, each non-skipped file adds +1 to
the project's vote when its original text contains a carriage-return
line-feed pair and -1 otherwise; and in mutate mode, a project with changed
files is saved with its newline setting overridden to carriage-return
line-feed when the accumulated vote is positive, to line-feed when it is
negative, and left at the static default when the vote is zero. -/
theorem c4_newline_vote_and_override (ld : Bool) (st : ProcState) (f : SourceFileModel)
    (p : ProjectModel) (ps : List ProjectModel)
    (hm : containsMarker f.text = false)
    (hd : (projState false p).differentFiles ≠ []) :
    (processFile ld true st f).1.crLfWeight =
      st.crLfWeight + (if hasCrLf f.text then 1 else -1) ∧
    Effect.save
      (if (projState false p).crLfWeight = 0 then p.newLineKind
       else if (projState false p).crLfWeight > 0 then NewLineKind.carriageReturnLineFeed
       else NewLineKind.lineFeed) ∈ runProjects false (p :: ps) := by
  constructor
  · rw [processFile_crLfWeight]
    simp [hm, fileVote]
  · simp only [runProjects]
    have hne : (projState false p).differentFiles.isEmpty = false := by
      cases hdf : (projState false p).differentFiles with
      | nil => exact absurd hdf hd
      | cons a l =>
        have : (processFiles false p.detectNewLineKind p.files
            { differentFiles := [], crLfWeight := 0 }).1.differentFiles = a :: l := hdf
        simp [this]
    have hne2 : (processFiles false p.detectNewLineKind p.files
        { differentFiles := [], crLfWeight := 0 }).1.differentFiles.isEmpty = false := hne
    rw [hne2]
    simp only [Bool.false_eq_true, if_false]
    have hkey :
        (if (projState false p).crLfWeight = 0 then p.newLineKind
         else if (projState false p).crLfWeight > 0 then NewLineKind.carriageReturnLineFeed
         else NewLineKind.lineFeed) =
        (if (processFiles false p.detectNewLineKind p.files
              { differentFiles := [], crLfWeight := 0 }).1.crLfWeight ≠ 0 then
           (if (processFiles false p.detectNewLineKind p.files
                { differentFiles := [], crLfWeight := 0 }).1.crLfWeight > 0 then
              NewLineKind.carriageReturnLineFeed
            else NewLineKind.lineFeed)
         else p.newLineKind) := by
      by_cases h0 : (projState false p).crLfWeight = 0
      · have h0' : (processFiles false p.detectNewLineKind p.files
            { differentFiles := [], crLfWeight := 0 }).1.crLfWeight = 0 := h0
        simp [h0, h0']
      · have h0' : ¬(processFiles false p.detectNewLineKind p.files
            { differentFiles := [], crLfWeight := 0 }).1.crLfWeight = 0 := h0
        simp only [h0, if_false, h0', ne_eq, not_false_eq_true, if_true]
        rfl
    rw [hkey]
    simp

/-- Claim C4 witness: a concrete file with carriage-return line-feed content
votes +1 from the empty state, and its project is saved with the
carriage-return line-feed override. -/
theorem c4_newline_vote_and_override_witness :
    (processFile false true { differentFiles := [], crLfWeight := 0 } c4File).1.crLfWeight =
      ({ differentFiles := [], crLfWeight := 0 } : ProcState).crLfWeight +
        (if hasCrLf c4File.text then 1 else -1) ∧
    Effect.save
      (if (projState false c4Proj).crLfWeight = 0 then c4Proj.newLineKind
       else if (projState false c4Proj).crLfWeight > 0 then NewLineKind.carriageReturnLineFeed
       else NewLineKind.lineFeed) ∈ runProjects false (c4Proj :: []) :=
  c4_newline_vote_and_override false { differentFiles := [], crLfWeight := 0 } c4File
    c4Proj [] (by decide) (by decide)

theorem regLookup_append_of_none {reg : Registry} {k : String}
    (h : regLookup reg k = none) (l : Registry) :
    regLookup (reg ++ l) k = regLookup l k := by
  induction reg with
  | nil => simp
  | cons e rest ih =>
    obtain ⟨k0, e0⟩ := e
    by_cases hk : k0 = k
    · simp [regLookup, hk] at h
    · simp only [List.cons_append, regLookup, hk, if_false]
      exact ih (by simpa [regLookup, hk] using h)

theorem regLookup_append_of_some {reg : Registry} {k : String} {e : ProjectEntry}
    (h : regLookup reg k = some e) (l : Registry) :
    regLookup (reg ++ l) k = some e := by
  induction reg with
  | nil => simp [regLookup] at h
  | cons x rest ih =>
    obtain ⟨k0, e0⟩ := x
    by_cases hk : k0 = k
    · simp only [regLookup, hk, if_true] at h
      simp [regLookup, hk, h]
    · simp only [regLookup, hk, if_false] at h
      simp only [List.cons_append, regLookup, hk, if_false]
      exact ih h

theorem regLookup_regPush (reg : Registry) (k' fp k : String) :
    regLookup (regPush reg k' fp) k =
      if k = k' then
        (regLookup reg k).map (fun e => { e with files := e.files ++ [fp] })
      else regLookup reg k := by
  induction reg with
  | nil => by_cases h : k = k' <;> simp [regPush, regLookup, h]
  | cons x rest ih =>
    obtain ⟨k0, e0⟩ := x
    by_cases hk : k0 = k'
    · subst hk
      by_cases hkk : k = k0
      · subst hkk
        simp [regPush, regLookup]
      · have hne : ¬k0 = k := fun h => hkk h.symm
        simp [regPush, regLookup, hkk, hne]
    · by_cases hkk : k0 = k
      · have hne : ¬k = k' := by
          intro h
          exact hk (hkk.trans h)
        simp [regPush, hk, regLookup, hkk, hne]
      · simp [regPush, hk, regLookup, hkk, ih]

theorem regLookup_ensureEntry (reg : Registry) (k' : String) (fresh : ProjectEntry)
    (k : String) :
    regLookup (ensureEntry reg k' fresh) k =
      match regLookup reg k with
      | some e => some e
      | none =>
        if k = k' ∧ regLookup reg k' = none then some fresh else none := by
  unfold ensureEntry
  cases hl' : regLookup reg k' with
  | some e' =>
    cases hlk : regLookup reg k with
    | some e => simp
    | none =>
      have hne : ¬(k = k' ∧ regLookup reg k' = none) := by
        rintro ⟨rfl, h2⟩
        rw [hl'] at h2
        cases h2
      simp [hlk, hne]
  | none =>
    cases hlk : regLookup reg k with
    | some e => simp [regLookup_append_of_some hlk]
    | none =>
      by_cases hkk : k = k'
      · subst hkk
        simp [regLookup_append_of_none hlk, regLookup, hl']
      · have hne : ¬k' = k := fun h => hkk h.symm
        simp [regLookup_append_of_none hlk, regLookup, hne, hkk]

theorem regLookup_ensureEntry_self_isSome (reg : Registry) (k : String)
    (fresh : ProjectEntry) : (regLookup (ensureEntry reg k fresh) k).isSome := by
  rw [regLookup_ensureEntry]
  cases h : regLookup reg k <;> simp [h]

theorem createProjectEntry_files (w : World) (fp : String) (cfg : Option String) :
    (createProjectEntry w fp cfg).files = [] := rfl

theorem countAll_regPush {reg : Registry} {k : String}
    (h : (regLookup reg k).isSome) (fp : String) :
    countAll (regPush reg k fp) fp = countAll reg fp + 1 := by
  induction reg with
  | nil => simp [regLookup] at h
  | cons x rest ih =>
    obtain ⟨k0, e0⟩ := x
    by_cases hk : k0 = k
    · simp [regPush, hk, countAll, List.count_append]
      omega
    · simp only [regLookup, hk, if_false] at h
      simp only [regPush, hk, if_false, countAll, List.map_cons, List.sum_cons]
      have := ih h
      simp only [countAll] at this
      omega

theorem countAll_ensureEntry (reg : Registry) (k : String) {fresh : ProjectEntry}
    (hf : fresh.files = []) (fp : String) :
    countAll (ensureEntry reg k fresh) fp = countAll reg fp := by
  unfold ensureEntry
  cases h : regLookup reg k with
  | some e => rfl
  | none => simp [countAll, hf]

theorem countIn_regPush_self {reg : Registry} {k : String} {e : ProjectEntry}
    (h : regLookup reg k = some e) (fp : String) :
    countIn (regPush reg k fp) k fp = countIn reg k fp + 1 := by
  unfold countIn
  rw [regLookup_regPush]
  simp [h, List.count_append]

theorem countIn_regPush_other {k' k : String} (reg : Registry) (h : ¬k = k')
    (fp : String) : countIn (regPush reg k' fp) k fp = countIn reg k fp := by
  unfold countIn
  rw [regLookup_regPush]
  simp [h]

theorem countIn_ensureEntry_self (reg : Registry) (k : String) {fresh : ProjectEntry}
    (hf : fresh.files = []) (fp : String) :
    countIn (ensureEntry reg k fresh) k fp = countIn reg k fp := by
  unfold countIn
  rw [regLookup_ensureEntry]
  cases h : regLookup reg k with
  | some e => simp
  | none =>
    by_cases hc : regLookup reg k = none
    · simp [hc, hf]
    · simp [h] at hc

theorem countIn_ensureEntry_other {k' k : String} (reg : Registry) (h : ¬k = k')
    (fresh : ProjectEntry) (fp : String) :
    countIn (ensureEntry reg k' fresh) k fp = countIn reg k fp := by
  unfold countIn
  rw [regLookup_ensureEntry]
  cases hl : regLookup reg k with
  | some e => simp
  | none => simp [h]

theorem styleAt_regPush (reg : Registry) (k' fp k : String) :
    styleAt (regPush reg k' fp) k = styleAt reg k := by
  unfold styleAt
  rw [regLookup_regPush]
  by_cases h : k = k'
  · cases hl : regLookup reg k <;> simp [h, hl]
  · simp [h]

theorem styleAt_ensureEntry_of_some {reg : Registry} {k : String} {e : ProjectEntry}
    (h : regLookup reg k = some e) (k' : String) (fresh : ProjectEntry) :
    styleAt (ensureEntry reg k' fresh) k = some (e.settings, e.detectNewLineKind) := by
  unfold styleAt
  simp [regLookup_ensureEntry, h]

theorem regLookup_ensureEntry_of_some {reg : Registry} {k : String} {e : ProjectEntry}
    (h : regLookup reg k = some e) (k' : String) (fresh : ProjectEntry) :
    regLookup (ensureEntry reg k' fresh) k = some e := by
  simp [regLookup_ensureEntry, h]

theorem regLookup_regPush_none_iff (reg : Registry) (k' fp k : String) :
    regLookup (regPush reg k' fp) k = none ↔ regLookup reg k = none := by
  rw [regLookup_regPush]
  by_cases h : k = k' <;> simp [h]

theorem styleAt_ensureEntry_created {reg : Registry} {k k' : String} {fresh : ProjectEntry}
    (hnone : regLookup reg k = none)
    (hsome : ¬regLookup (ensureEntry reg k' fresh) k = none) :
    styleAt (ensureEntry reg k' fresh) k = some (fresh.settings, fresh.detectNewLineKind) := by
  unfold styleAt
  simp only [regLookup_ensureEntry, hnone] at hsome ⊢
  by_cases hcond : k = k' ∧ regLookup reg k' = none
  · simp [hcond]
  · simp [hcond] at hsome

theorem styleAt_addToFake (w : World) (reg : Registry) (fp k : String)
    (hnone : regLookup reg k = none)
    (hsome : ¬regLookup (addToFakeProject w reg fp) k = none) :
    styleAt (addToFakeProject w reg fp) k =
      some (getManipulationSettings (w.ec fp), jsTruthyStr (w.ec fp).end_of_line) := by
  unfold addToFakeProject at hsome ⊢
  rw [regLookup_regPush_none_iff] at hsome
  rw [styleAt_regPush]
  exact styleAt_ensureEntry_created hnone hsome

/-- Claim C6: routing attaches every input file path to exactly one project:
the total number of occurrences of the path across all registry entries
grows by exactly one, and (for a real configuration key distinct from the
fake key) the attachment lands on the real project when it recognizes the
file and on the fake project otherwise, never on both; the fake-identity
retry is a single non-recursive step. -/
theorem c6_exactly_one_attachment (w : World) (reg : Registry) (fp : String)
    (cfg : Option String) :
    countAll (addFileToProject w reg fp cfg) fp = countAll reg fp + 1 ∧
    (∀ c, jsPathOpt cfg = some c → ¬c = "fake" →
      (w.recognizes c fp = true →
        countIn (addFileToProject w reg fp cfg) c fp = countIn reg c fp + 1 ∧
        countIn (addFileToProject w reg fp cfg) "fake" fp = countIn reg "fake" fp) ∧
      (w.recognizes c fp = false →
        countIn (addFileToProject w reg fp cfg) "fake" fp = countIn reg "fake" fp + 1 ∧
        countIn (addFileToProject w reg fp cfg) c fp = countIn reg c fp)) ∧
    (jsPathOpt cfg = none →
      countIn (addFileToProject w reg fp cfg) "fake" fp = countIn reg "fake" fp + 1) := by
  refine ⟨?_, ?_, ?_⟩
  · unfold addFileToProject addToFakeProject
    cases hc : jsPathOpt cfg with
    | none =>
      rw [countAll_regPush (regLookup_ensureEntry_self_isSome _ _ _),
        countAll_ensureEntry _ _ (createProjectEntry_files w fp none)]
    | some c =>
      by_cases hr : w.recognizes c fp
      · simp only [hr, if_true]
        rw [countAll_regPush (regLookup_ensureEntry_self_isSome _ _ _),
          countAll_ensureEntry _ _ (createProjectEntry_files w fp (some c))]
      · simp only [hr, Bool.false_eq_true, if_false]
        rw [countAll_regPush (regLookup_ensureEntry_self_isSome _ _ _),
          countAll_ensureEntry _ _ (createProjectEntry_files w fp none),
          countAll_ensureEntry _ _ (createProjectEntry_files w fp (some c))]
  · intro c hc hcf
    unfold addFileToProject addToFakeProject
    rw [hc]
    constructor
    · intro hr
      simp only [hr, if_true]
      constructor
      · cases he : regLookup (ensureEntry reg c (createProjectEntry w fp (some c))) c with
        | none =>
          have := regLookup_ensureEntry_self_isSome reg c (createProjectEntry w fp (some c))
          rw [he] at this
          cases this
        | some e =>
          rw [countIn_regPush_self he,
            countIn_ensureEntry_self _ _ (createProjectEntry_files w fp (some c))]
      · rw [countIn_regPush_other _ (fun h => hcf h.symm),
          countIn_ensureEntry_other _ (fun h => hcf h.symm)]
    · intro hr
      simp only [hr, Bool.false_eq_true, if_false]
      constructor
      · cases he : regLookup
            (ensureEntry (ensureEntry reg c (createProjectEntry w fp (some c))) "fake"
              (createProjectEntry w fp none)) "fake" with
        | none =>
          have := regLookup_ensureEntry_self_isSome
            (ensureEntry reg c (createProjectEntry w fp (some c))) "fake"
            (createProjectEntry w fp none)
          rw [he] at this
          cases this
        | some e =>
          rw [countIn_regPush_self he,
            countIn_ensureEntry_self _ _ (createProjectEntry_files w fp none),
            countIn_ensureEntry_other _ (fun h => hcf h.symm)]
      · rw [countIn_regPush_other _ hcf,
          countIn_ensureEntry_other _ hcf,
          countIn_ensureEntry_self _ _ (createProjectEntry_files w fp (some c))]
  · intro hc
    unfold addFileToProject addToFakeProject
    rw [hc]
    cases he : regLookup (ensureEntry reg "fake" (createProjectEntry w fp none)) "fake" with
    | none =>
      have := regLookup_ensureEntry_self_isSome reg "fake" (createProjectEntry w fp none)
      rw [he] at this
      cases this
    | some e =>
      rw [countIn_regPush_self he,
        countIn_ensureEntry_self _ _ (createProjectEntry_files w fp none)]

/-- Claim C6 witness: in an empty registry, a file whose nearest real
configuration does not recognize it is attached once in total, once to the
fake project and not to the real entry. -/
theorem c6_exactly_one_attachment_witness :
    countAll (addFileToProject wSimple [] "a.ts" (some "/p/tsconfig.json")) "a.ts" =
      countAll ([] : Registry) "a.ts" + 1 ∧
    countIn (addFileToProject wSimple [] "a.ts" (some "/p/tsconfig.json")) "fake" "a.ts" =
      countIn ([] : Registry) "fake" "a.ts" + 1 ∧
    countIn (addFileToProject wSimple [] "a.ts" (some "/p/tsconfig.json"))
        "/p/tsconfig.json" "a.ts" =
      countIn ([] : Registry) "/p/tsconfig.json" "a.ts" := by
  have h := c6_exactly_one_attachment wSimple [] "a.ts" (some "/p/tsconfig.json")
  have h2 := (h.2.1 "/p/tsconfig.json" (by decide) (by decide)).2 (by decide)
  exact ⟨h.1, h2.1, h2.2⟩

/-- Claim C10: an entry's manipulation settings and detectNewLineKind flag
are derived from the editorconfig of the first file path routed to its
identity: any routing call leaves the style of every existing entry
untouched, and any entry the call creates carries the settings and flag
read for the path being routed. -/
theorem c10_settings_fixed_at_creation (w : World) (reg : Registry) (fp : String)
    (cfg : Option String) (k : String) :
    (∀ e, regLookup reg k = some e →
      styleAt (addFileToProject w reg fp cfg) k = some (e.settings, e.detectNewLineKind)) ∧
    (regLookup reg k = none →
      ¬regLookup (addFileToProject w reg fp cfg) k = none →
      styleAt (addFileToProject w reg fp cfg) k =
        some (getManipulationSettings (w.ec fp), jsTruthyStr (w.ec fp).end_of_line)) := by
  constructor
  · intro e he
    unfold addFileToProject addToFakeProject
    cases hc : jsPathOpt cfg with
    | none => rw [styleAt_regPush, styleAt_ensureEntry_of_some he]
    | some c =>
      by_cases hr : w.recognizes c fp
      · simp only [hr, if_true]
        rw [styleAt_regPush, styleAt_ensureEntry_of_some he]
      · simp only [hr, Bool.false_eq_true, if_false]
        rw [styleAt_regPush,
          styleAt_ensureEntry_of_some (regLookup_ensureEntry_of_some he _ _)]
  · intro hnone hsome
    unfold addFileToProject at hsome ⊢
    cases hc : jsPathOpt cfg with
    | none =>
      rw [hc] at hsome
      exact styleAt_addToFake w reg fp k hnone hsome
    | some c =>
      rw [hc] at hsome
      by_cases hr : w.recognizes c fp
      · simp only [hr, if_true] at hsome ⊢
        rw [regLookup_regPush_none_iff] at hsome
        rw [styleAt_regPush]
        exact styleAt_ensureEntry_created hnone hsome
      · simp only [hr, Bool.false_eq_true, if_false] at hsome ⊢
        cases h1 : regLookup (ensureEntry reg c (createProjectEntry w fp (some c))) k with
        | none => exact styleAt_addToFake w _ fp k h1 hsome
        | some e =>
          have h2 := regLookup_ensureEntry reg c (createProjectEntry w fp (some c)) k
          rw [h1] at h2
          simp only [hnone] at h2
          by_cases hcond : k = c ∧ regLookup reg c = none
          · rw [if_pos hcond] at h2
            have he : e = createProjectEntry w fp (some c) := by
              injection h2
            show styleAt (addToFakeProject w
              (ensureEntry reg c (createProjectEntry w fp (some c))) fp) k = _
            unfold addToFakeProject
            rw [styleAt_regPush, styleAt_ensureEntry_of_some h1, he]
            rfl
          · rw [if_neg hcond] at h2
            cases h2

/-- Claim C10 witness: routing a second file to an existing fake entry
leaves its settings and flag exactly as the first file created them. -/
theorem c10_settings_fixed_at_creation_witness :
    styleAt (addFileToProject wSimple
        [("fake", createProjectEntry wSimple "first.ts" none)] "second.ts" none) "fake" =
      some ((createProjectEntry wSimple "first.ts" none).settings,
        (createProjectEntry wSimple "first.ts" none).detectNewLineKind) :=
  (c10_settings_fixed_at_creation wSimple
      [("fake", createProjectEntry wSimple "first.ts" none)] "second.ts" none "fake").1
    (createProjectEntry wSimple "first.ts" none) rfl

/-- Claim C8: the style resolver maps directory style settings to the
manipulation settings as follows: indent style tab yields tab indentation,
otherwise tab width 2 yields two-space indentation, otherwise four-space
indentation; a declared crlf line ending yields carriage-return line-feed,
otherwise line-feed; the quote kind is always single; and the
detectNewLineKind flag of a created project entry is true iff the settings
explicitly declare a (nonempty) line-ending preference. -/
theorem c8_style_resolver (ec : EditorConfig) (w : World) (fp : String)
    (cfg : Option String) :
    (ec.indent_style = some "tab" →
      (getManipulationSettings ec).indentationText = IndentationText.tab) ∧
    (¬ec.indent_style = some "tab" → ec.tab_width = some 2 →
      (getManipulationSettings ec).indentationText = IndentationText.twoSpaces) ∧
    (¬ec.indent_style = some "tab" → ¬ec.tab_width = some 2 →
      (getManipulationSettings ec).indentationText = IndentationText.fourSpaces) ∧
    (ec.end_of_line = some "crlf" →
      (getManipulationSettings ec).newLineKind = NewLineKind.carriageReturnLineFeed) ∧
    (¬ec.end_of_line = some "crlf" →
      (getManipulationSettings ec).newLineKind = NewLineKind.lineFeed) ∧
    (getManipulationSettings ec).quoteKind = QuoteKind.single ∧
    (createProjectEntry w fp cfg).settings = getManipulationSettings (w.ec fp) ∧
    ((createProjectEntry w fp cfg).detectNewLineKind = true ↔
      ∃ s, (w.ec fp).end_of_line = some s ∧ ¬s = "") := by
  refine ⟨?_, ?_, ?_, ?_, ?_, rfl, rfl, ?_⟩
  · intro h
    simp [getManipulationSettings, h]
  · intro h1 h2
    simp [getManipulationSettings, h1, h2]
  · intro h1 h2
    simp [getManipulationSettings, h1, h2]
  · intro h
    simp [getManipulationSettings, h]
  · intro h
    simp [getManipulationSettings, h]
  · show jsTruthyStr (w.ec fp).end_of_line = true ↔ _
    cases h : (w.ec fp).end_of_line with
    | none => simp [jsTruthyStr]
    | some s =>
      simp only [jsTruthyStr, Bool.not_eq_true', Option.some.injEq]
      constructor
      · intro hs
        refine ⟨s, rfl, ?_⟩
        intro hemp
        subst hemp
        simp [String.isEmpty] at hs
      · rintro ⟨t, ht, htne⟩
        subst ht
        cases hse : s.isEmpty
        · rfl
        · exact absurd ((String.isEmpty_iff s).mp hse) htne

/-- Claim C8 witness: a tab indent style with a declared crlf line ending
resolves to tab indentation and carriage-return line-feed. -/
theorem c8_style_resolver_witness :
    (getManipulationSettings
        { indent_style := some "tab", tab_width := none, end_of_line := some "crlf" }
      ).indentationText = IndentationText.tab ∧
    (getManipulationSettings
        { indent_style := some "tab", tab_width := none, end_of_line := some "crlf" }
      ).newLineKind = NewLineKind.carriageReturnLineFeed := by
  have h := c8_style_resolver
    { indent_style := some "tab", tab_width := none, end_of_line := some "crlf" }
    wSimple "x.ts" none
  exact ⟨h.1 rfl, h.2.2.2.1 rfl⟩

theorem string_join_cons (s : String) (l : List String) :
    String.join (s :: l) = s ++ String.join l := by
  apply String.ext
  simp

theorem stdoutOf_cons_out (s : String) (effs : List Effect) :
    stdoutOf (Effect.out s :: effs) = s ++ stdoutOf effs := by
  show String.join (s :: _) = _
  exact string_join_cons s _

theorem exitOf_cons_out (s : String) (effs : List Effect) :
    exitOf (Effect.out s :: effs) = exitOf effs := rfl

theorem stdoutOf_prints (l : List String) (n : Nat) :
    stdoutOf (l.map (fun fp => Effect.out (fp ++ "\n")) ++ [Effect.exit n]) =
      String.join (l.map (fun s => s ++ "\n")) := by
  induction l with
  | nil => rfl
  | cons s l ih =>
    simp only [List.map_cons, List.cons_append]
    rw [stdoutOf_cons_out, ih, string_join_cons]

theorem exitOf_prints (l : List String) (n : Nat) :
    exitOf (l.map (fun fp => Effect.out (fp ++ "\n")) ++ [Effect.exit n]) = n := by
  induction l with
  | nil => rfl
  | cons s l ih =>
    simp only [List.map_cons, List.cons_append]
    rw [exitOf_cons_out]
    exact ih

theorem runProjects_listDifferent (ps : List ProjectModel) :
    runProjects true ps =
      match ps.find? projHasDifferent with
      | none => []
      | some p =>
        (projState true p).differentFiles.map (fun fp => Effect.out (fp ++ "\n")) ++
          [Effect.exit 2] := by
  induction ps with
  | nil => simp [runProjects, loggerLine]
  | cons p ps ih =>
    simp only [runProjects]
    by_cases hd : (processFiles true p.detectNewLineKind p.files
        { differentFiles := [], crLfWeight := 0 }).1.differentFiles.isEmpty
    · have hpred : ¬projHasDifferent p = true := by
        simp [projHasDifferent, projState, hd]
      rw [List.find?_cons_of_neg _ hpred, processFiles_effects_listDifferent]
      simp only [hd, if_true, List.nil_append]
      exact ih
    · have hd' : (processFiles true p.detectNewLineKind p.files
          { differentFiles := [], crLfWeight := 0 }).1.differentFiles.isEmpty = false := by
        simpa using hd
      have hpred : projHasDifferent p = true := by
        simp [projHasDifferent, projState, hd']
      rw [List.find?_cons_of_pos _ hpred, processFiles_effects_listDifferent]
      simp [hd', projState]

/-- Claim C7: in list-different mode no project save is ever invoked: for
every world and every input path list, the effect trace of the run contains
no save effect, so file contents on disk are unchanged regardless of the
exit code. -/
theorem c7_list_different_never_saves (w : World) (filePaths : List String)
    (nl : NewLineKind) : Effect.save nl ∉ mainModel w filePaths true := by
  unfold mainModel
  rw [runProjects_listDifferent]
  cases hf : (projectsOf w filePaths).find? projHasDifferent with
  | none => simp [loggerLine]
  | some p => simp [loggerLine]

/-- Claim C1 (counterexample): with two projects each holding one file with
disorganized imports, the list-different run exits 2 but prints only the
first project's changed path: standard output is a.ts followed by a line
break, while the changed files across every project are a.ts and b.ts, so
the output is not the list of all such paths. -/
theorem c1_counterexample :
    exitOf (mainModel wTwoProjects ["a.ts", "b.ts"] true) = 2 ∧
    stdoutOf (mainModel wTwoProjects ["a.ts", "b.ts"] true) = "a.ts\n" ∧
    disorganizedPaths (projectsOf wTwoProjects ["a.ts", "b.ts"]) = ["a.ts", "b.ts"] ∧
    ¬stdoutOf (mainModel wTwoProjects ["a.ts", "b.ts"] true) =
        String.join ((disorganizedPaths (projectsOf wTwoProjects ["a.ts", "b.ts"])).map
          (fun s => s ++ "\n")) := by
  refine ⟨by decide, by decide, by decide, by decide⟩

/-- Claim C1 (amended): in list-different mode, the process exit code is 2
iff some project's batch produced a changed file (and 0 otherwise), and
standard output contains exactly the changed paths of the first project in
registry order whose batch produced any, one per line, with no other
output; projects after that one are not processed. -/
theorem c1_list_different_exit_and_output (w : World) (filePaths : List String) :
    exitOf (mainModel w filePaths true) =
      (if ((projectsOf w filePaths).find? projHasDifferent).isSome then 2 else 0) ∧
    stdoutOf (mainModel w filePaths true) =
      String.join
        ((((projectsOf w filePaths).find? projHasDifferent).elim []
            (fun p => (projState true p).differentFiles)).map (fun s => s ++ "\n")) := by
  unfold mainModel
  rw [runProjects_listDifferent]
  cases hf : (projectsOf w filePaths).find? projHasDifferent with
  | none => exact ⟨rfl, rfl⟩
  | some p => exact ⟨exitOf_prints _ 2, stdoutOf_prints _ 2⟩

/-- Claim C3 (counterexample): an invocation whose only argument is
--list-different has no positional file paths and no --help, yet the
program does not print the no-files message and does not exit 1: it runs
main with an empty path list, produces no output at all, and exits 0. -/
theorem c3_counterexample :
    (cliMain wSimple ["--list-different"]).1 = [] ∧
    (cliMain wSimple ["--list-different"]).2 = 0 ∧
    ¬(cliMain wSimple ["--list-different"]).2 = 1 ∧
    Effect.err "No files specified." ∉ (cliMain wSimple ["--list-different"]).1 := by
  refine ⟨by decide, by decide, by decide, by decide⟩

/-- Claim C3 (amended): the no-files guard tests the raw argument count, not
the positional paths: with an empty argument list the program prints the
no-files message to standard error and exits 1 attempting nothing else,
while an invocation whose only argument is --list-different bypasses the
guard, processes an empty file list and exits 0 with no output. -/
theorem c3_empty_args_guard (w : World) (args : List String) (h : args = []) :
    cliMain w args = ([Effect.err "No files specified."], 1) ∧
    cliMain w ["--list-different"] = ([], 0) := by
  constructor
  · rw [h]
    rfl
  · rfl

/-- Claim C3 witness: both amended behaviors at the concrete world. -/
theorem c3_empty_args_guard_witness :
    cliMain wSimple [] = ([Effect.err "No files specified."], 1) ∧
    cliMain wSimple ["--list-different"] = ([], 0) :=
  c3_empty_args_guard wSimple [] rfl

end OrgImports
